import Mathlib

/-!
Travel journal: record persistence and list / edit / map reconciliation

A shallow embedding of the three screens of the application
(`src/screens/ListScreen.js`, `src/screens/CreateScreen.js`,
`src/screens/MapScreen.js`) restricted to what they do with the single
storage slot `travelRecords`.

Modelling conventions.

* A JavaScript number is a binary64 value and is represented by the rational
  it denotes. Latitude and longitude are only carried around. The product
  `batteryLevel * 100` is the binary64 product: the exact product rounded to
  the nearest binary64 value, a tie going to the even significand
  (`numberMul`). `Math.round` of a binary64 value is exact (`mathRound`).
* A timestamp is the ISO-8601 string produced by `new Date().toISOString()`.
  `new Date(s)` and `toISOString` are mutually inverse on such strings, so a
  timestamp is represented by its epoch-millisecond value, which is also what
  the comparator of the list screen subtracts.
* The slot holds `JSON.stringify` of an array. `JSON.parse` after
  `JSON.stringify` gives the array back, with array holes turned into `null`;
  an entry of a stored array is therefore a record or `null`.
* An `await` that rejects and a statement that throws inside a `try` both end
  in the `catch` branch of the enclosing function.
-/

namespace DWT

/-! ## Data model -/

/-- One journal entry, with exactly the fields `saveRecord` writes. -/
structure Record where
  thoughts : String
  latitude : Rat
  longitude : Rat
  city : String
  image : String
  batteryLevel : Int
  timestamp : Int
deriving DecidableEq

/-- A parsed array of the slot: every entry is a record or `null`. -/
abbrev Collection := List (Option Record)

/-- What `AsyncStorage.getItem('travelRecords')` followed by `JSON.parse`
can observe: the key was never written (`getItem` resolves to `null`), the
read rejects or the stored string does not parse, or the slot holds the
serialisation of an array. -/
inductive Slot where
  | absent : Slot
  | unreadable : Slot
  | holds : Collection → Slot
deriving DecidableEq

/-! ## JavaScript array primitives used by the screens -/

/-- Worker of `arrayFilter`: the callback receives the element and its
index, counted from `k`. -/
def filterFrom {α : Type} (keep : α → Nat → Bool) : Nat → List α → List α
  | _, [] => []
  | k, x :: xs =>
    if keep x k then x :: filterFrom keep (k + 1) xs else filterFrom keep (k + 1) xs

/-- The method `Array.prototype.filter` with a callback `(element, index)`. -/
def arrayFilter {α : Type} (keep : α → Nat → Bool) (xs : List α) : List α :=
  filterFrom keep 0 xs

/-- The method `Array.prototype.sort(compare)`: the specified result for a
consistent comparator is the stable arrangement in which `compare a b ≤ 0`
holds from left to right. It is computed here by insertion, each element
being placed in front of the first one it does not have to follow. -/
def arraySort {α : Type} (compare : α → α → Int) (xs : List α) : List α :=
  xs.insertionSort (fun a b => compare a b ≤ 0)

/-- The assignment `records[k] = v` for an integer `k`, as seen after
serialisation. An index inside the array replaces the entry; an index at or
past the end extends the array, the skipped positions being holes that
serialise as `null`; a negative number (or one that is no array index,
from `2^32 - 1` on) only adds a named property, which serialisation drops. -/
def arrayAssign (records : Collection) (k : Int) (v : Record) : Collection :=
  if 0 ≤ k ∧ k < 2 ^ 32 - 1 then
    if k.toNat < records.length then records.set k.toNat (some v)
    else records ++ List.replicate (k.toNat - records.length) none ++ [some v]
  else records

/-- The function `Math.round`: the nearest integer, halves going up. -/
def mathRound (x : Rat) : Int := Rat.floor (x + 1 / 2)

/-- The nearest integer, a tie going to the even one. -/
def roundHalfEven (x : Rat) : Int :=
  if x - Rat.floor x < 1 / 2 then Rat.floor x
  else if 1 / 2 < x - Rat.floor x then Rat.floor x + 1
  else if Rat.floor x % 2 = 0 then Rat.floor x else Rat.floor x + 1

/-- The exponent of the last binary digit binary64 keeps for a nonzero `x`:
53 significant digits counted from the leading one, and never below the
digit `2^(-1074)` of the subnormal numbers. -/
def quantum (x : Rat) : Int := max (Int.log 2 |x| - 52) (-1074)

/-- The binary64 value nearest to `x`, a tie going to the even significand
(the default rounding of every JavaScript arithmetic operation), for `x`
below the overflow threshold. -/
def toBinary64 (x : Rat) : Rat :=
  if x = 0 then 0 else (roundHalfEven (x / 2 ^ quantum x) : Rat) * 2 ^ quantum x

/-- The operator `*` on two numbers: the exact product, rounded. -/
def numberMul (a b : Rat) : Rat := toBinary64 (a * b)

/-! ## ListScreen.js -/

/-- The comparator `(a, b) => new Date(b.timestamp) - new Date(a.timestamp)`. -/
def compareFn (a b : Record) : Int := b.timestamp - a.timestamp

/-- The records of a parsed array when none of its entries is `null`. -/
def allRecords : Collection → Option (List Record)
  | [] => some []
  | none :: _ => none
  | some r :: rest => (allRecords rest).map (fun rs => r :: rs)

/-- The statement `parsedRecords.sort(compareFn)`. The comparator reads
`.timestamp` of both arguments, so it throws on a `null` entry; it is called
as soon as the array has two elements. `none` stands for the exception. -/
def sortParsed (parsed : Collection) : Option Collection :=
  match allRecords parsed with
  | some rs => some ((arraySort compareFn rs).map some)
  | none => if parsed.length ≤ 1 then some parsed else none

/-- The function `loadRecords` of the list screen, as a function of the slot
and of the current `records` state; the result is the `records` state
afterwards. `setRecords` is reached only when the slot holds a string and
parsing and sorting succeed; every other path leaves the state as it was. -/
def loadRecords (slot : Slot) (records : Collection) : Collection :=
  match slot with
  | Slot.absent => records
  | Slot.unreadable => records
  | Slot.holds parsed =>
    match sortParsed parsed with
    | some sorted => sorted
    | none => records

/-- The `Delete` button of the confirmation raised by `handleDelete(index)`,
with a storage write that succeeds: the displayed list without position
`index` is written to the slot and set as state, then `loadRecords` runs
again. The result is the slot and the `records` state afterwards. -/
def handleDelete (records : Collection) (index : Int) : Slot × Collection :=
  let newRecords := arrayFilter (fun _ i => decide ((i : Int) ≠ index)) records
  (Slot.holds newRecords, loadRecords (Slot.holds newRecords) newRecords)

/-- The navigation parameters `{ record, index }` of the `Create` route. -/
structure RouteParams where
  record : Option Record
  index : Int
deriving DecidableEq

/-- The function `handleEdit(record, index)`: navigate to `Create` with the
list item and its position in the displayed list. -/
def handleEdit (record : Option Record) (index : Nat) : RouteParams :=
  { record := record, index := (index : Int) }

/-- The arguments `renderItem` gives to `handleEdit` for the row at display
position `d`: the item of the `records` state at `d`, and `d` itself. -/
def editRowParams (records : Collection) (d : Nat) : Option RouteParams :=
  (records.get? d).map (fun item => handleEdit item d)

/-! ## CreateScreen.js -/

/-- The `coords` of a location object. -/
structure Coords where
  latitude : Rat
  longitude : Rat
deriving DecidableEq

/-- The state of the create / edit form. -/
structure FormState where
  thoughts : String
  location : Option Coords
  image : Option String
  city : String
  isEditing : Bool
  editIndex : Option Int
deriving DecidableEq

/-- The function `resetForm`. -/
def resetForm : FormState :=
  { thoughts := "", location := none, image := none, city := "",
    isEditing := false, editIndex := none }

/-- The focus callback of the form: seed an edit session from
`route.params` when it carries a record, reset the form otherwise. -/
def focusEffect (route : Option RouteParams) : FormState :=
  match route with
  | some { record := some record, index := index } =>
    { thoughts := record.thoughts,
      location := some { latitude := record.latitude, longitude := record.longitude },
      image := some record.image,
      city := record.city,
      isEditing := true,
      editIndex := some index }
  | _ => resetForm

/-- What `saveRecord` reports to the user. -/
inductive SaveOutcome where
  | requiredFields : SaveOutcome
  | saved : SaveOutcome
  | updated : SaveOutcome
  | failed : SaveOutcome
deriving DecidableEq

/-- The guard `!thoughts || !location || !image` is false: the text is not
empty, a location object is present, and the image reference is a non-empty
string. -/
def formComplete (st : FormState) : Bool :=
  decide (st.thoughts ≠ "") && st.location.isSome &&
    (match st.image with
     | some uri => decide (uri ≠ "")
     | none => false)

/-- The record `route.params.record` read in edit mode; `none` stands for
the `TypeError` of reading a field of `undefined` or `null`. -/
def routeRecord (route : Option RouteParams) : Option Record :=
  match route with
  | some params => params.record
  | none => none

/-- The object literal `record` built by `saveRecord`. In edit mode the
battery level and the timestamp are those of `route.params.record`;
otherwise they are `Math.round(batteryLevel * 100)` and the current time. -/
def buildRecord (st : FormState) (coords : Coords) (image : String)
    (route : Option RouteParams) (batteryLevel : Rat) (now : Int) : Option Record :=
  if st.isEditing then
    (routeRecord route).map (fun seed =>
      { thoughts := st.thoughts, latitude := coords.latitude, longitude := coords.longitude,
        city := st.city, image := image,
        batteryLevel := seed.batteryLevel, timestamp := seed.timestamp })
  else
    some
      { thoughts := st.thoughts, latitude := coords.latitude, longitude := coords.longitude,
        city := st.city, image := image,
        batteryLevel := mathRound (numberMul batteryLevel 100), timestamp := now }

/-- The statement `existingRecords ? JSON.parse(existingRecords) : []`;
`none` stands for a rejected read or a parse error. -/
def existingRecords (slot : Slot) : Option Collection :=
  match slot with
  | Slot.absent => some []
  | Slot.unreadable => none
  | Slot.holds c => some c

/-- The function `saveRecord`, with a storage write that succeeds. Inputs:
the form state, `route.params`, the battery fraction returned by the
platform, the current time, and the slot. Result: the outcome reported and
the slot afterwards. -/
def saveRecord (st : FormState) (route : Option RouteParams) (batteryLevel : Rat)
    (now : Int) (slot : Slot) : SaveOutcome × Slot :=
  if formComplete st then
    match st.location, st.image with
    | some coords, some image =>
      match buildRecord st coords image route batteryLevel now with
      | none => (SaveOutcome.failed, slot)
      | some record =>
        match existingRecords slot with
        | none => (SaveOutcome.failed, slot)
        | some records =>
          let records' :=
            match st.isEditing, st.editIndex with
            | true, some editIndex => arrayAssign records editIndex record
            | _, _ => records ++ [some record]
          (if st.isEditing then SaveOutcome.updated else SaveOutcome.saved,
            Slot.holds records')
    | _, _ => (SaveOutcome.requiredFields, slot)
  else (SaveOutcome.requiredFields, slot)

/-! ## MapScreen.js -/

/-- The function `loadMarkers` of the map screen: the `markers` state
afterwards. Both the `else` branch and the `catch` branch clear the state. -/
def loadMarkers (slot : Slot) (_markers : Collection) : Collection :=
  match slot with
  | Slot.absent => []
  | Slot.unreadable => []
  | Slot.holds parsed => parsed

/-- One `Marker` element of a record: coordinate, title, and the `Image`
child, present when `marker.image` is truthy. -/
structure Pin where
  latitude : Rat
  longitude : Rat
  title : String
  image : Option String
deriving DecidableEq

/-- The body of the callback of `markers.map`. -/
def markerPin (marker : Record) : Pin :=
  { latitude := marker.latitude, longitude := marker.longitude, title := marker.city,
    image := if marker.image ≠ "" then some marker.image else none }

/-- The expression `markers.map((marker, index) => <Marker ... />)`; `none`
stands for the `TypeError` of reading a field of a `null` marker. -/
def recordPins : Collection → Option (List Pin)
  | [] => some []
  | none :: _ => none
  | some marker :: rest => (recordPins rest).map (fun pins => markerPin marker :: pins)

/-- The children of the `MapView`, which is rendered only once the device
location is known: the pin of the current location, then the record pins. -/
def renderMap (location : Option Coords) (markers : Collection) :
    Option (Coords × List Pin) :=
  match location with
  | none => none
  | some here => (recordPins markers).map (fun pins => (here, pins))

/-! ## Sample data -/

/-- A first entry, the oldest of the samples. -/
def lyon : Record :=
  { thoughts := "Old town", latitude := 45, longitude := 5, city := "Lyon",
    image := "file://lyon.jpg", batteryLevel := 64, timestamp := 1000 }

/-- A second entry, created after `lyon`. -/
def oslo : Record :=
  { thoughts := "Harbour walk", latitude := 60, longitude := 11, city := "Oslo",
    image := "file://oslo.jpg", batteryLevel := 47, timestamp := 2000 }

/-- A third entry, the most recent of the samples. -/
def rome : Record :=
  { thoughts := "Forum at dusk", latitude := 42, longitude := 12, city := "Rome",
    image := "file://rome.jpg", batteryLevel := 91, timestamp := 3000 }

/-- The binary64 value written `0.82`. -/
def number_0_82 : Rat := 7385903388887613 / 9007199254740992

/-- The binary64 value written `0.825`. -/
def number_0_825 : Rat := 3715469692580659 / 4503599627370496

/-! ## Auxiliary facts -/

theorem filterFrom_all {α : Type} (keep : α → Nat → Bool) (xs : List α) (k : Nat)
    (h : ∀ x j, k ≤ j → keep x j = true) : filterFrom keep k xs = xs := by
  induction xs generalizing k with
  | nil => rfl
  | cons x xs ih =>
    simp only [filterFrom, h x k (Nat.le_refl k), if_true]
    rw [ih (k + 1) (fun y j hj => h y j (by omega))]

theorem filterFrom_eraseIdx {α : Type} (keep : α → Nat → Bool) (xs : List α) (i k : Nat)
    (h : ∀ x j, keep x j = decide (j ≠ k + i)) : filterFrom keep k xs = xs.eraseIdx i := by
  induction xs generalizing i k with
  | nil => rfl
  | cons x xs ih =>
    cases i with
    | zero =>
      have hx : keep x k = false := by rw [h]; simp
      have hrest := filterFrom_all keep xs (k + 1) (by intro y j hj; rw [h]; simp; omega)
      simp only [filterFrom, hx, hrest, List.eraseIdx_cons_zero]
      simp
    | succ i =>
      have hx : keep x k = true := by rw [h]; simp
      have hrest := ih i (k + 1) (by intro y j; rw [h]; congr 2; omega)
      simp only [filterFrom, hx, hrest, List.eraseIdx_cons_succ, if_true]

theorem arrayFilter_ne_index {α : Type} (xs : List α) (i : Nat) :
    arrayFilter (fun _ j => decide ((j : Int) ≠ (i : Int))) xs = xs.eraseIdx i := by
  unfold arrayFilter
  apply filterFrom_eraseIdx
  intro x j
  simp

theorem eraseIdx_map_some (c : List Record) (i : Nat) :
    (c.map some).eraseIdx i = (c.eraseIdx i).map some := by
  induction c generalizing i with
  | nil => rfl
  | cons r c ih =>
    cases i with
    | zero => rfl
    | succ i => simp [List.eraseIdx_cons_succ, ih]

theorem allRecords_map_some (c : List Record) : allRecords (c.map some) = some c := by
  induction c with
  | nil => rfl
  | cons r c ih => simp [allRecords, ih]

theorem sortParsed_map_some (c : List Record) :
    sortParsed (c.map some) = some ((arraySort compareFn c).map some) := by
  simp [sortParsed, allRecords_map_some]

theorem loadRecords_holds (c : List Record) (prior : Collection) :
    loadRecords (Slot.holds (c.map some)) prior = (arraySort compareFn c).map some := by
  simp [loadRecords, sortParsed_map_some]

theorem compareFn_le_zero (a b : Record) : compareFn a b ≤ 0 ↔ b.timestamp ≤ a.timestamp := by
  unfold compareFn
  omega

theorem arraySort_perm (c : List Record) : (arraySort compareFn c).Perm c :=
  List.perm_insertionSort _ c

theorem arraySort_length (c : List Record) : (arraySort compareFn c).length = c.length :=
  (arraySort_perm c).length_eq

theorem arraySort_sorted (c : List Record) :
    (arraySort compareFn c).Sorted (fun a b => b.timestamp ≤ a.timestamp) := by
  haveI : IsTotal Record (fun a b => compareFn a b ≤ 0) :=
    ⟨fun a b => by simp only [compareFn_le_zero]; omega⟩
  haveI : IsTrans Record (fun a b => compareFn a b ≤ 0) :=
    ⟨fun a b c => by simp only [compareFn_le_zero]; omega⟩
  have h := List.sorted_insertionSort (fun a b => compareFn a b ≤ 0) c
  exact h.imp (fun {a b} hab => (compareFn_le_zero a b).mp hab)

theorem arraySort_of_sorted (c : List Record)
    (h : c.Sorted (fun a b => b.timestamp ≤ a.timestamp)) : arraySort compareFn c = c := by
  unfold arraySort
  apply List.Sorted.insertionSort_eq
  exact h.imp (fun {a b} hab => (compareFn_le_zero a b).mpr hab)

theorem filter_orderedInsert (t : Int) (a : Record) (l : List Record) :
    (l.orderedInsert (fun a b => compareFn a b ≤ 0) a).filter (fun r => decide (r.timestamp = t))
      = (a :: l).filter (fun r => decide (r.timestamp = t)) := by
  induction l with
  | nil => rfl
  | cons b l ih =>
    by_cases hab : compareFn a b ≤ 0
    · simp only [List.orderedInsert, hab, if_true]
    · have hlt : a.timestamp < b.timestamp := by
        rw [compareFn_le_zero] at hab; omega
      simp only [List.orderedInsert, hab, if_false]
      rw [List.filter_cons, ih]
      by_cases hat : a.timestamp = t
      · have hbt : ¬ b.timestamp = t := by omega
        simp [List.filter_cons, hat, hbt]
      · simp [List.filter_cons, hat]

theorem arraySort_stable (c : List Record) (t : Int) :
    (arraySort compareFn c).filter (fun r => decide (r.timestamp = t))
      = c.filter (fun r => decide (r.timestamp = t)) := by
  unfold arraySort
  induction c with
  | nil => rfl
  | cons a c ih =>
    rw [List.insertionSort, filter_orderedInsert, List.filter_cons, List.filter_cons, ih]

theorem formComplete_of_fields (st : FormState) (coords : Coords) (image : String)
    (hth : st.thoughts ≠ "") (hloc : st.location = some coords)
    (himg : st.image = some image) (hne : image ≠ "") : formComplete st = true := by
  simp [formComplete, hth, hloc, himg, hne]

theorem arrayAssign_inside (c : List Record) (i : Nat) (v : Record)
    (hi : i < c.length) (hjs : c.length < 2 ^ 32) :
    arrayAssign (c.map some) (i : Int) v = (c.set i v).map some := by
  have h1 : (0 : Int) ≤ (i : Int) ∧ (i : Int) < 2 ^ 32 - 1 := by
    constructor
    · omega
    · have : (i : Int) < (c.length : Int) := by exact_mod_cast hi
      have : (c.length : Int) < 2 ^ 32 := by exact_mod_cast hjs
      omega
  simp only [arrayAssign, h1, and_self, if_true, Int.toNat_ofNat, List.length_map, hi,
    List.map_set]

theorem arrayAssign_negative (records : Collection) (k : Int) (v : Record) (hk : k < 0) :
    arrayAssign records k v = records := by
  have h1 : ¬ ((0 : Int) ≤ k ∧ k < 2 ^ 32 - 1) := by omega
  simp only [arrayAssign, h1, if_false]

theorem arrayAssign_not_index (records : Collection) (k : Int) (v : Record)
    (hk : 2 ^ 32 - 1 ≤ k) : arrayAssign records k v = records := by
  have h1 : ¬ ((0 : Int) ≤ k ∧ k < 2 ^ 32 - 1) := by omega
  simp only [arrayAssign, h1, if_false]

theorem arrayAssign_beyond (records : Collection) (k : Int) (v : Record)
    (hlo : (records.length : Int) ≤ k) (hhi : k < 2 ^ 32 - 1) :
    arrayAssign records k v
      = records ++ List.replicate (k.toNat - records.length) none ++ [some v] := by
  have h1 : (0 : Int) ≤ k ∧ k < 2 ^ 32 - 1 := by omega
  have h2 : ¬ k.toNat < records.length := by omega
  simp only [arrayAssign, h1, and_self, if_true, h2, if_false]

theorem saveRecord_edit_eq (st : FormState) (coords : Coords) (image : String)
    (route : Option RouteParams) (seed : Record) (k : Int) (b : Rat) (now : Int)
    (slot : Slot) (records : Collection)
    (hmode : st.isEditing = true) (hidx : st.editIndex = some k) (hth : st.thoughts ≠ "")
    (hloc : st.location = some coords) (himg : st.image = some image) (hne : image ≠ "")
    (hseed : routeRecord route = some seed) (hslot : existingRecords slot = some records) :
    saveRecord st route b now slot
      = (SaveOutcome.updated,
          Slot.holds (arrayAssign records k
            { thoughts := st.thoughts, latitude := coords.latitude,
              longitude := coords.longitude, city := st.city, image := image,
              batteryLevel := seed.batteryLevel, timestamp := seed.timestamp })) := by
  have hc := formComplete_of_fields st coords image hth hloc himg hne
  simp [saveRecord, hc, hloc, himg, buildRecord, hmode, hidx, hseed, hslot]

theorem recordPins_map_some (c : List Record) :
    recordPins (c.map some) = some (c.map markerPin) := by
  induction c with
  | nil => rfl
  | cons r c ih => simp [recordPins, ih]

theorem filterFrom_index_map {α β : Type} (p : Nat → Bool) (f : α → β) (xs : List α)
    (k : Nat) :
    filterFrom (fun _ j => p j) k (xs.map f) = (filterFrom (fun _ j => p j) k xs).map f := by
  induction xs generalizing k with
  | nil => rfl
  | cons x xs ih =>
    by_cases hp : p k = true
    · simp only [List.map_cons, filterFrom, hp, if_true, ih]
    · simp only [List.map_cons, filterFrom, hp, if_false, ih]
      simp

theorem arrayFilter_index_map {α β : Type} (p : Nat → Bool) (f : α → β) (xs : List α) :
    arrayFilter (fun _ j => p j) (xs.map f) = (arrayFilter (fun _ j => p j) xs).map f :=
  filterFrom_index_map p f xs 0

theorem arrayFilter_ne_negative {α : Type} (xs : List α) (d : Int) (hd : d < 0) :
    arrayFilter (fun _ j => decide ((j : Int) ≠ d)) xs = xs := by
  unfold arrayFilter
  apply filterFrom_all
  intro x j _
  simp
  omega

theorem arrayFilter_ne_past_end {α : Type} (xs : List α) (d : Int)
    (hd : (xs.length : Int) ≤ d) :
    arrayFilter (fun _ j => decide ((j : Int) ≠ d)) xs = xs := by
  have h0 : 0 ≤ d := by omega
  have hcast : d = ((d.toNat : Nat) : Int) := (Int.toNat_of_nonneg h0).symm
  rw [hcast, arrayFilter_ne_index]
  apply List.eraseIdx_of_length_le
  omega

theorem arrayFilter_ne_inside {α : Type} (xs : List α) (d : Int) (h0 : 0 ≤ d) :
    arrayFilter (fun _ j => decide ((j : Int) ≠ d)) xs = xs.eraseIdx d.toNat := by
  have hcast : d = ((d.toNat : Nat) : Int) := (Int.toNat_of_nonneg h0).symm
  have h := arrayFilter_ne_index xs d.toNat
  rw [← hcast] at h
  exact h

theorem filterFrom_sublist {α : Type} (keep : α → Nat → Bool) (xs : List α) (k : Nat) :
    (filterFrom keep k xs).Sublist xs := by
  induction xs generalizing k with
  | nil => exact List.Sublist.slnil
  | cons x xs ih =>
    by_cases hx : keep x k = true
    · simp only [filterFrom, hx, if_true]
      exact (ih (k + 1)).cons₂ x
    · simp only [filterFrom, hx, if_false]
      exact (ih (k + 1)).cons x

theorem arrayFilter_sorted (keep : Record → Nat → Bool) (c : List Record) :
    (arrayFilter keep (arraySort compareFn c)).Sorted (fun a b => b.timestamp ≤ a.timestamp) :=
  List.Pairwise.sublist (filterFrom_sublist keep _ 0) (arraySort_sorted c)

theorem handleDelete_loaded (c : List Record) (d : Int) (prior : Collection) :
    handleDelete (loadRecords (Slot.holds (c.map some)) prior) d
      = (Slot.holds
          ((arrayFilter (fun _ i => decide ((i : Int) ≠ d)) (arraySort compareFn c)).map some),
         (arrayFilter (fun _ i => decide ((i : Int) ≠ d)) (arraySort compareFn c)).map some) := by
  have hmap : arrayFilter (fun (_ : Option Record) i => decide ((i : Int) ≠ d))
        ((arraySort compareFn c).map some)
      = (arrayFilter (fun (_ : Record) i => decide ((i : Int) ≠ d))
          (arraySort compareFn c)).map some :=
    arrayFilter_index_map (fun i => decide ((i : Int) ≠ d)) some (arraySort compareFn c)
  have hsorted := arrayFilter_sorted (fun _ i => decide ((i : Int) ≠ d)) c
  simp only [handleDelete, loadRecords_holds, hmap, arraySort_of_sorted _ hsorted]

theorem ratFloor_eq (x : Rat) : Rat.floor x = ⌊x⌋ := rfl

theorem mathRound_bracket (p : Rat) :
    (mathRound p : Rat) - 1 / 2 ≤ p ∧ p < (mathRound p : Rat) + 1 / 2 := by
  unfold mathRound
  rw [ratFloor_eq]
  have h1 := Int.floor_le (p + 1 / 2)
  have h2 := Int.lt_floor_add_one (p + 1 / 2)
  constructor <;> linarith

theorem roundHalfEven_near (x : Rat) : |x - (roundHalfEven x : Rat)| ≤ 1 / 2 := by
  have h1 := Int.floor_le x
  have h2 := Int.lt_floor_add_one x
  unfold roundHalfEven
  rw [ratFloor_eq]
  rw [abs_le]
  split_ifs with ha hb hc <;> push_cast <;> constructor <;> linarith

theorem roundHalfEven_tie (x : Rat) (h : |x - (roundHalfEven x : Rat)| = 1 / 2) :
    roundHalfEven x % 2 = 0 := by
  have h1 := Int.floor_le x
  have h2 := Int.lt_floor_add_one x
  unfold roundHalfEven at h ⊢
  rw [ratFloor_eq] at h ⊢
  split_ifs at h ⊢ with ha hb hc
  · exfalso
    rw [abs_of_nonneg (by linarith)] at h
    linarith
  · exfalso
    push_cast at h
    rw [abs_of_nonpos (by linarith)] at h
    linarith
  · exact hc
  · omega

theorem quantum_bracket (x : Rat) (hx : x ≠ 0) :
    ∃ e : Int, (2 : Rat) ^ e ≤ |x| ∧ |x| < (2 : Rat) ^ (e + 1)
      ∧ quantum x = max (e - 52) (-1074) := by
  refine ⟨Int.log 2 |x|, ?_, ?_, rfl⟩
  · have h := Int.zpow_log_le_self (b := 2) (r := |x|) (by norm_num) (abs_pos.mpr hx)
    simpa using h
  · have h := Int.lt_zpow_succ_log_self (b := 2) (by norm_num) |x|
    simpa using h

theorem quantum_of_bracket (x : Rat) (e : Int) (h1 : (2 : Rat) ^ e ≤ |x|)
    (h2 : |x| < (2 : Rat) ^ (e + 1)) : quantum x = max (e - 52) (-1074) := by
  have hpos : 0 < |x| := lt_of_lt_of_le (by positivity) h1
  have ha : e ≤ Int.log 2 |x| := by
    apply (Int.zpow_le_iff_le_log (b := 2) (by norm_num) hpos).mp
    simpa using h1
  have hb : Int.log 2 |x| < e + 1 := by
    apply (Int.lt_zpow_iff_log_lt (b := 2) (by norm_num) hpos).mp
    simpa using h2
  have : Int.log 2 |x| = e := by omega
  unfold quantum
  rw [this]

theorem toBinary64_nearest (x : Rat) (hx : x ≠ 0) :
    ∃ e n : Int, (2 : Rat) ^ e ≤ |x| ∧ |x| < (2 : Rat) ^ (e + 1)
      ∧ toBinary64 x = (n : Rat) * 2 ^ max (e - 52) (-1074)
      ∧ |x / 2 ^ max (e - 52) (-1074) - (n : Rat)| ≤ 1 / 2
      ∧ (|x / 2 ^ max (e - 52) (-1074) - (n : Rat)| = 1 / 2 → n % 2 = 0) := by
  obtain ⟨e, h1, h2, hq⟩ := quantum_bracket x hx
  refine ⟨e, roundHalfEven (x / 2 ^ quantum x), h1, h2, ?_, ?_, ?_⟩
  · simp only [toBinary64, hx, if_false, hq]
  · rw [← hq]
    exact roundHalfEven_near _
  · rw [← hq]
    exact roundHalfEven_tie _

theorem toBinary64_error (x : Rat) (hx : |x| ≤ 100) : |toBinary64 x - x| ≤ 1 / 2 ^ 47 := by
  by_cases h0 : x = 0
  · simp [toBinary64, h0]
  · have hpos : 0 < |x| := abs_pos.mpr h0
    have hlog : Int.log 2 |x| < 7 := by
      apply (Int.lt_zpow_iff_log_lt (b := 2) (by norm_num) hpos).mp
      have : |x| < 128 := by linarith
      simpa using (by norm_num; exact this : |x| < (2 : Rat) ^ (7 : Int))
    have hq : quantum x ≤ -46 := by
      unfold quantum
      omega
    have hpow : (0 : Rat) < 2 ^ quantum x := by positivity
    have hle : (2 : Rat) ^ quantum x ≤ 2 ^ (-46 : Int) :=
      zpow_le_zpow_right₀ (by norm_num) hq
    have hnear := roundHalfEven_near (x / 2 ^ quantum x)
    have hrw : toBinary64 x - x
        = -((x / 2 ^ quantum x - (roundHalfEven (x / 2 ^ quantum x) : Rat)) * 2 ^ quantum x) := by
      simp only [toBinary64, h0, if_false]
      field_simp
      ring
    rw [hrw, abs_neg, abs_mul, abs_of_pos hpow]
    have h46 : (2 : Rat) ^ (-46 : Int) = 1 / 2 ^ 46 := by
      rw [zpow_neg]
      norm_num
    calc |x / 2 ^ quantum x - (roundHalfEven (x / 2 ^ quantum x) : Rat)| * 2 ^ quantum x
        ≤ 1 / 2 * 2 ^ (-46 : Int) :=
          mul_le_mul hnear hle (le_of_lt hpow) (by norm_num)
      _ = 1 / 2 ^ 47 := by rw [h46]; norm_num

theorem roundHalfEven_of_near (x : Rat) (n : Int) (h : |x - (n : Rat)| < 1 / 2) :
    roundHalfEven x = n := by
  have hnear := roundHalfEven_near x
  rw [abs_lt] at h
  rw [abs_le] at hnear
  have h1 : ((roundHalfEven x : Int) : Rat) < (n : Rat) + 1 := by linarith
  have h2 : (n : Rat) < ((roundHalfEven x : Int) : Rat) + 1 := by linarith
  have h3 : roundHalfEven x < n + 1 := by exact_mod_cast h1
  have h4 : n < roundHalfEven x + 1 := by exact_mod_cast h2
  omega

theorem toBinary64_of_near (x : Rat) (e n : Int) (h1 : (2 : Rat) ^ e ≤ |x|)
    (h2 : |x| < (2 : Rat) ^ (e + 1))
    (h : |x / 2 ^ max (e - 52) (-1074) - (n : Rat)| < 1 / 2) :
    toBinary64 x = (n : Rat) * 2 ^ max (e - 52) (-1074) := by
  have hx : x ≠ 0 := by
    intro h0
    rw [h0, abs_zero] at h1
    exact absurd h1 (not_le.mpr (by positivity))
  have hq := quantum_of_bracket x e h1 h2
  simp only [toBinary64, hx, if_false, hq, roundHalfEven_of_near _ n h]

theorem numberMul_0_82 : numberMul number_0_82 100 = 82 := by
  unfold numberMul number_0_82
  rw [toBinary64_of_near _ 6 (82 * 2 ^ 46) (by norm_num [abs_of_pos])
    (by norm_num [abs_of_pos]) (by norm_num [abs_lt])]
  norm_num

theorem numberMul_0_825 : numberMul number_0_825 100 = 165 / 2 := by
  unfold numberMul number_0_825
  rw [toBinary64_of_near _ 6 (165 * 2 ^ 45) (by norm_num [abs_of_pos])
    (by norm_num [abs_of_pos]) (by norm_num [abs_lt])]
  norm_num

theorem mathRound_eq (p : Rat) (n : Int) (h1 : (n : Rat) - 1 / 2 ≤ p)
    (h2 : p < (n : Rat) + 1 / 2) : mathRound p = n := by
  obtain ⟨h3, h4⟩ := mathRound_bracket p
  have h5 : ((mathRound p : Int) : Rat) < (n : Rat) + 1 := by linarith
  have h6 : (n : Rat) < ((mathRound p : Int) : Rat) + 1 := by linarith
  have h7 : mathRound p < n + 1 := by exact_mod_cast h5
  have h8 : n < mathRound p + 1 := by exact_mod_cast h6
  omega

theorem mathRound_numberMul_0_82 : mathRound (numberMul number_0_82 100) = 82 := by
  rw [numberMul_0_82]
  exact mathRound_eq 82 82 (by norm_num) (by norm_num)

theorem mathRound_numberMul_0_825 : mathRound (numberMul number_0_825 100) = 83 := by
  rw [numberMul_0_825]
  exact mathRound_eq (165 / 2) 83 (by norm_num) (by norm_num)

theorem mathRound_exact_0_825 : mathRound (number_0_825 * 100) = 82 := by
  unfold number_0_825
  exact mathRound_eq _ 82 (by norm_num) (by norm_num)

theorem saveRecord_create_eq (st : FormState) (coords : Coords) (image : String)
    (route : Option RouteParams) (b : Rat) (t : Int) (slot : Slot) (records : Collection)
    (hmode : st.isEditing = false) (hth : st.thoughts ≠ "")
    (hloc : st.location = some coords) (himg : st.image = some image) (hne : image ≠ "")
    (hslot : existingRecords slot = some records) :
    saveRecord st route b t slot
      = (SaveOutcome.saved,
          Slot.holds (records ++
            [some { thoughts := st.thoughts, latitude := coords.latitude,
                    longitude := coords.longitude, city := st.city, image := image,
                    batteryLevel := mathRound (numberMul b 100), timestamp := t }])) := by
  have hc := formComplete_of_fields st coords image hth hloc himg hne
  simp [saveRecord, hc, hloc, himg, buildRecord, hmode, hslot]

/-! ## Deleting from the list screen -/

/-- C1, as the code has it. For every persisted collection `c` and every
valid position `i`, the delete of the list screen, acting on the list loaded
from `c`, persists the list loaded from `c` (that is `c` in timestamp
descending order) with the element at position `i` removed and the others
kept in that order; the persisted collection has length `length c - 1`; and
it is `c` with the element at `i` removed whenever `c` is already in
timestamp descending order. -/
theorem handleDelete_persists_loaded_list_without_position (c : List Record) (i : Nat)
    (prior : Collection) (hi : i < c.length) :
    (handleDelete (loadRecords (Slot.holds (c.map some)) prior) i).1
        = Slot.holds (((arraySort compareFn c).eraseIdx i).map some)
      ∧ ((arraySort compareFn c).eraseIdx i).length = c.length - 1
      ∧ (c.Sorted (fun a b => b.timestamp ≤ a.timestamp) →
          (handleDelete (loadRecords (Slot.holds (c.map some)) prior) i).1
            = Slot.holds ((c.eraseIdx i).map some)) := by
  have hpersist : (handleDelete (loadRecords (Slot.holds (c.map some)) prior) i).1
      = Slot.holds (((arraySort compareFn c).eraseIdx i).map some) := by
    simp only [handleDelete, loadRecords_holds, arrayFilter_ne_index, eraseIdx_map_some]
  refine ⟨hpersist, ?_, ?_⟩
  · rw [List.length_eraseIdx_of_lt (by rw [arraySort_length]; exact hi), arraySort_length]
  · intro hsorted
    rw [hpersist, arraySort_of_sorted c hsorted]

/-- Witness of C1 as the code has it: three entries already in display
order, the middle one deleted. -/
theorem handleDelete_persists_loaded_list_without_position_witness :
    1 < [rome, oslo, lyon].length ∧
      (handleDelete (loadRecords (Slot.holds ([rome, oslo, lyon].map some)) []) (1 : Nat)).1
        = Slot.holds ([rome, lyon].map some) := by
  refine ⟨by decide, ?_⟩
  have h := (handleDelete_persists_loaded_list_without_position [rome, oslo, lyon] 1 []
    (by decide)).2.2 (by decide)
  exact h

/-- C1 as stated fails: with the entries stored in creation order and
position 0 deleted, the slot afterwards holds `[oslo, lyon]`, while the
stored collection without its element 0 is `[oslo, rome]`. -/
theorem handleDelete_not_erase_of_stored :
    (handleDelete (loadRecords (Slot.holds ([lyon, oslo, rome].map some)) []) (0 : Nat)).1
        = Slot.holds [some oslo, some lyon]
      ∧ ([lyon, oslo, rome].eraseIdx 0).map some = [some oslo, some rome]
      ∧ (handleDelete (loadRecords (Slot.holds ([lyon, oslo, rome].map some)) []) (0 : Nat)).1
        ≠ Slot.holds (([lyon, oslo, rome].eraseIdx 0).map some) := by
  decide

/-! ## The list shown by the list screen -/

/-- C5. For every persisted collection `c`, the list produced by
`loadRecords` is a permutation of `c`, it is ordered by timestamp
descending, and for every timestamp the records of `c` carrying it appear in
the list in the same relative order as in `c` (the sort is stable). -/
theorem loadRecords_sorted_stable_permutation (c : List Record) (prior : Collection) :
    loadRecords (Slot.holds (c.map some)) prior = (arraySort compareFn c).map some
      ∧ (arraySort compareFn c).Perm c
      ∧ (arraySort compareFn c).Sorted (fun a b => b.timestamp ≤ a.timestamp)
      ∧ ∀ t : Int, (arraySort compareFn c).filter (fun r => decide (r.timestamp = t))
          = c.filter (fun r => decide (r.timestamp = t)) :=
  ⟨loadRecords_holds c prior, arraySort_perm c, arraySort_sorted c, arraySort_stable c⟩

/-! ## Saving a new record -/

/-- C3. For every persisted collection `c`, every valid draft (non-empty
thoughts, a location, an image), every current time `t` and every battery
fraction `b` (between -1 and 1), saving in create mode persists `c` followed
by one record `created`: the persisted collection has length `length c + 1`,
its first `length c` elements are `c` and its last element is `created`.
That record has the thoughts, latitude, longitude, city and image of the
draft and the timestamp `t`. Its battery level is `Math.round` of the
product `b * 100` as the program computes it: the product is the binary64
value nearest to the exact `b * 100` (a multiple of the last kept binary
digit, at most half a digit away, a tie going to the even multiple), and
the battery level is the integer `n` with `n - 1/2 ≤ product < n + 1/2`. It
is therefore within `1/2 + 2^(-47)` of the exact `b * 100`. From the empty
store (the slot was never written) and `b = 0.82` the result is one record
with battery level 82 and timestamp `t`. -/
theorem saveRecord_create_appends (c : List Record) (st : FormState) (coords : Coords)
    (image : String) (route : Option RouteParams) (b : Rat) (t : Int)
    (hmode : st.isEditing = false) (hth : st.thoughts ≠ "")
    (hloc : st.location = some coords) (himg : st.image = some image) (hne : image ≠ "")
    (hb : |b| ≤ 1) :
    (∃ (created : Record) (product : Rat),
      created.thoughts = st.thoughts ∧ created.latitude = coords.latitude
        ∧ created.longitude = coords.longitude ∧ created.city = st.city
        ∧ created.image = image ∧ created.timestamp = t
        ∧ (b * 100 = 0 → product = 0)
        ∧ (b * 100 ≠ 0 →
            ∃ e n : Int, (2 : Rat) ^ e ≤ |b * 100| ∧ |b * 100| < (2 : Rat) ^ (e + 1)
              ∧ product = (n : Rat) * 2 ^ max (e - 52) (-1074)
              ∧ |b * 100 / 2 ^ max (e - 52) (-1074) - (n : Rat)| ≤ 1 / 2
              ∧ (|b * 100 / 2 ^ max (e - 52) (-1074) - (n : Rat)| = 1 / 2 → n % 2 = 0))
        ∧ (created.batteryLevel : Rat) - 1 / 2 ≤ product
        ∧ product < (created.batteryLevel : Rat) + 1 / 2
        ∧ |(created.batteryLevel : Rat) - b * 100| ≤ 1 / 2 + 1 / 2 ^ 47
        ∧ saveRecord st route b t (Slot.holds (c.map some))
          = (SaveOutcome.saved, Slot.holds ((c ++ [created]).map some))
        ∧ (c ++ [created]).length = c.length + 1
        ∧ (c ++ [created]).take c.length = c
        ∧ (c ++ [created]).getLast? = some created)
      ∧ saveRecord st route number_0_82 t Slot.absent
        = (SaveOutcome.saved,
            Slot.holds [some { thoughts := st.thoughts, latitude := coords.latitude,
                               longitude := coords.longitude, city := st.city,
                               image := image, batteryLevel := 82, timestamp := t }]) := by
  constructor
  · have hround := mathRound_bracket (numberMul b 100)
    have herr : |numberMul b 100 - b * 100| ≤ 1 / 2 ^ 47 := by
      apply toBinary64_error
      rw [abs_mul]
      have h100 : |(100 : Rat)| = 100 := abs_of_pos (by norm_num)
      rw [h100]
      linarith
    refine ⟨{ thoughts := st.thoughts, latitude := coords.latitude,
              longitude := coords.longitude, city := st.city, image := image,
              batteryLevel := mathRound (numberMul b 100), timestamp := t },
      numberMul b 100, rfl, rfl, rfl, rfl, rfl, rfl, ?_, ?_, hround.1, hround.2, ?_, ?_,
      ?_, ?_, ?_⟩
    · intro h0
      simp [numberMul, toBinary64, h0]
    · intro h0
      exact toBinary64_nearest (b * 100) h0
    · rw [abs_le] at herr ⊢
      constructor <;> linarith [hround.1, hround.2, herr.1, herr.2]
    · rw [saveRecord_create_eq st coords image route b t (Slot.holds (c.map some))
        (c.map some) hmode hth hloc himg hne rfl]
      simp
    · simp
    · simp
    · simp
  · rw [saveRecord_create_eq st coords image route number_0_82 t Slot.absent []
      hmode hth hloc himg hne rfl, mathRound_numberMul_0_82]
    rfl

/-- Witness of C3: the scenario of the specification, a first record saved
at battery fraction `0.82`. -/
theorem saveRecord_create_appends_witness :
    |number_0_82| ≤ 1
      ∧ saveRecord { thoughts := "Nice view",
                     location := some { latitude := 1, longitude := 2 },
                     image := some "file://a.jpg", city := "", isEditing := false,
                     editIndex := none } none number_0_82 5000 Slot.absent
        = (SaveOutcome.saved,
            Slot.holds [some { thoughts := "Nice view", latitude := 1, longitude := 2,
                               city := "", image := "file://a.jpg", batteryLevel := 82,
                               timestamp := 5000 }]) :=
  have hb : |number_0_82| ≤ 1 := by
    unfold number_0_82
    rw [abs_le]
    constructor <;> norm_num
  ⟨hb, (saveRecord_create_appends [lyon]
    { thoughts := "Nice view", location := some { latitude := 1, longitude := 2 },
      image := some "file://a.jpg", city := "", isEditing := false, editIndex := none }
    { latitude := 1, longitude := 2 } "file://a.jpg" none number_0_82 5000
    rfl (by decide) rfl rfl (by decide) hb).2⟩

/-- The product the program computes is not the exact one: for the battery
fraction `0.825` the binary64 product is `82.5` and the level stored is 83,
while the exact product lies below `82.5` and would round to 82. -/
theorem saveRecord_create_rounds_binary64_product :
    numberMul number_0_825 100 = 165 / 2
      ∧ number_0_825 * 100 < 165 / 2
      ∧ mathRound (number_0_825 * 100) = 82
      ∧ (saveRecord { thoughts := "Nice view",
                      location := some { latitude := 1, longitude := 2 },
                      image := some "file://a.jpg", city := "", isEditing := false,
                      editIndex := none } none number_0_825 5000 Slot.absent).2
        = Slot.holds [some { thoughts := "Nice view", latitude := 1, longitude := 2,
                             city := "", image := "file://a.jpg", batteryLevel := 83,
                             timestamp := 5000 }] := by
  refine ⟨numberMul_0_825, ?_, mathRound_exact_0_825, ?_⟩
  · unfold number_0_825
    norm_num
  · rw [saveRecord_create_eq _ { latitude := 1, longitude := 2 } "file://a.jpg" none
      number_0_825 5000 Slot.absent [] rfl (by decide) rfl rfl (by decide) rfl,
      mathRound_numberMul_0_825]
    rfl

/-! ## Validation -/

/-- C4. For every slot content and every draft whose thoughts is empty, or
whose location is missing, or whose image is missing (absent, or the empty
reference), `saveRecord` reports the required fields and leaves the slot as
it was, in create mode and in edit mode alike. -/
theorem saveRecord_incomplete_no_mutation (st : FormState) (route : Option RouteParams)
    (b : Rat) (now : Int) (slot : Slot)
    (h : st.thoughts = "" ∨ st.location = none ∨ st.image = none ∨ st.image = some "") :
    saveRecord st route b now slot = (SaveOutcome.requiredFields, slot) := by
  have hc : formComplete st = false := by
    rcases h with h | h | h | h <;> simp [formComplete, h]
  simp [saveRecord, hc]

/-- Witness of C4: an edit session whose text was cleared, on a store of
two records. -/
theorem saveRecord_incomplete_no_mutation_witness :
    saveRecord { thoughts := "", location := some { latitude := 60, longitude := 11 },
                 image := some "file://oslo.jpg", city := "Oslo", isEditing := true,
                 editIndex := some 1 }
        (some { record := some oslo, index := 1 }) (1 / 2) 5000
        (Slot.holds [some lyon, some oslo])
      = (SaveOutcome.requiredFields, Slot.holds [some lyon, some oslo]) :=
  saveRecord_incomplete_no_mutation _ _ _ _ _ (Or.inl rfl)

/-! ## Saving an edit -/

/-- C2, as the code has it. For every persisted collection `c`, every index
`i` inside it and every valid draft, saving in edit mode yields a collection
of the same length in which the element at `i` has the thoughts, latitude,
longitude, city and image of the draft and has the timestamp and battery
level of the record the edit session was seeded from (`route.params.record`),
and every element at another index is unchanged. The timestamp and battery
level are those the record at `i` had before the overwrite whenever the
session was seeded from a record that carries them. -/
theorem saveRecord_edit_overwrites_index (c : List Record) (i : Nat) (st : FormState)
    (coords : Coords) (image : String) (route : Option RouteParams) (seed : Record)
    (b : Rat) (now : Int)
    (hi : i < c.length) (hjs : c.length < 2 ^ 32)
    (hmode : st.isEditing = true) (hidx : st.editIndex = some (i : Int))
    (hth : st.thoughts ≠ "") (hloc : st.location = some coords)
    (himg : st.image = some image) (hne : image ≠ "")
    (hseed : routeRecord route = some seed) :
    ∃ updated : Record,
      updated.thoughts = st.thoughts ∧ updated.latitude = coords.latitude
        ∧ updated.longitude = coords.longitude ∧ updated.city = st.city
        ∧ updated.image = image
        ∧ updated.batteryLevel = seed.batteryLevel ∧ updated.timestamp = seed.timestamp
        ∧ saveRecord st route b now (Slot.holds (c.map some))
          = (SaveOutcome.updated, Slot.holds ((c.set i updated).map some))
        ∧ (c.set i updated).length = c.length
        ∧ (c.set i updated).get? i = some updated
        ∧ (∀ j : Nat, j ≠ i → (c.set i updated).get? j = c.get? j)
        ∧ (∀ old : Record, c.get? i = some old → seed.timestamp = old.timestamp →
            seed.batteryLevel = old.batteryLevel →
            updated.timestamp = old.timestamp ∧ updated.batteryLevel = old.batteryLevel) := by
  refine ⟨{ thoughts := st.thoughts, latitude := coords.latitude,
            longitude := coords.longitude, city := st.city, image := image,
            batteryLevel := seed.batteryLevel, timestamp := seed.timestamp },
    rfl, rfl, rfl, rfl, rfl, rfl, rfl, ?_, ?_, ?_, ?_, ?_⟩
  · rw [saveRecord_edit_eq st coords image route seed i b now (Slot.holds (c.map some)) (c.map some)
      hmode hidx hth hloc himg hne hseed rfl, arrayAssign_inside c i _ hi hjs]
  · simp
  · simp [List.get?_eq_getElem?, hi]
  · intro j hj
    simp [List.get?_eq_getElem?, List.getElem?_set_ne (Ne.symm hj)]
  · intro old _ ht hb
    exact ⟨ht, hb⟩

/-- Witness of C2 as the code has it: the record stored at index 1 is
edited from a session seeded with that record. -/
theorem saveRecord_edit_overwrites_index_witness :
    ∃ updated : Record,
      updated.thoughts = "Rewritten" ∧ updated.latitude = 60
        ∧ updated.longitude = 11 ∧ updated.city = "Oslo"
        ∧ updated.image = "file://oslo.jpg"
        ∧ updated.batteryLevel = oslo.batteryLevel ∧ updated.timestamp = oslo.timestamp
        ∧ saveRecord { thoughts := "Rewritten",
                       location := some { latitude := 60, longitude := 11 },
                       image := some "file://oslo.jpg", city := "Oslo", isEditing := true,
                       editIndex := some ((1 : Nat) : Int) }
            (some { record := some oslo, index := 1 }) (1 / 2) 9000
            (Slot.holds ([lyon, oslo, rome].map some))
          = (SaveOutcome.updated, Slot.holds (([lyon, oslo, rome].set 1 updated).map some))
        ∧ ([lyon, oslo, rome].set 1 updated).length = [lyon, oslo, rome].length
        ∧ ([lyon, oslo, rome].set 1 updated).get? 1 = some updated
        ∧ (∀ j : Nat, j ≠ 1 → ([lyon, oslo, rome].set 1 updated).get? j = [lyon, oslo, rome].get? j)
        ∧ (∀ old : Record, [lyon, oslo, rome].get? 1 = some old →
            oslo.timestamp = old.timestamp → oslo.batteryLevel = old.batteryLevel →
            updated.timestamp = old.timestamp ∧ updated.batteryLevel = old.batteryLevel) :=
  saveRecord_edit_overwrites_index [lyon, oslo, rome] 1
    { thoughts := "Rewritten", location := some { latitude := 60, longitude := 11 },
      image := some "file://oslo.jpg", city := "Oslo", isEditing := true,
      editIndex := some ((1 : Nat) : Int) }
    { latitude := 60, longitude := 11 } "file://oslo.jpg"
    (some { record := some oslo, index := 1 }) oslo (1 / 2) 9000
    (by decide) (by decide) rfl rfl (by decide) rfl rfl (by decide) rfl

/-- C2 as stated fails: the collection is stored in creation order, the list
screen shows it most recent first, and the edit is started from the first row
and saved with a new text. The row carries `oslo` and position 0, so the
element written at index 0 has the timestamp 2000 and the battery level 47 of
`oslo`, while the record at index 0 before the overwrite, `lyon`, had 1000
and 64. -/
theorem saveRecord_edit_provenance_not_of_index :
    (saveRecord
        { focusEffect (editRowParams (loadRecords (Slot.holds [some lyon, some oslo]) []) 0)
            with thoughts := "Rewritten" }
        (editRowParams (loadRecords (Slot.holds [some lyon, some oslo]) []) 0)
        (1 / 2) 9000 (Slot.holds [some lyon, some oslo])).2
        = Slot.holds
            [some { thoughts := "Rewritten", latitude := 60, longitude := 11, city := "Oslo",
                    image := "file://oslo.jpg", batteryLevel := 47, timestamp := 2000 },
             some oslo]
      ∧ [lyon, oslo].get? 0 = some lyon ∧ lyon.timestamp = 1000 ∧ lyon.batteryLevel = 64 := by
  decide

/-- What `saveRecord` computes when the edit index `k` lies outside
`0 ≤ k < length c`: there is no bounds check, so the save goes through and
reports an update. When `k` is negative, or is no array index (`2^32 - 1` or
more), the slot is rewritten with `c`. Otherwise (`length c ≤ k < 2^32 - 1`)
the slot receives `c`, then `null` at the positions from `length c` up to
`k`, then the new record at `k`, an array of length `k + 1` that the list
screen and the map screen cannot process. -/
theorem saveRecord_edit_outside_range (c : List Record) (k : Int) (st : FormState)
    (coords : Coords) (image : String) (route : Option RouteParams) (seed : Record)
    (b : Rat) (now : Int)
    (hout : k < 0 ∨ (c.length : Int) ≤ k)
    (hmode : st.isEditing = true) (hidx : st.editIndex = some k)
    (hth : st.thoughts ≠ "") (hloc : st.location = some coords)
    (himg : st.image = some image) (hne : image ≠ "")
    (hseed : routeRecord route = some seed) :
    ∃ updated : Record,
      updated.thoughts = st.thoughts ∧ updated.latitude = coords.latitude
        ∧ updated.longitude = coords.longitude ∧ updated.city = st.city
        ∧ updated.image = image
        ∧ updated.batteryLevel = seed.batteryLevel ∧ updated.timestamp = seed.timestamp
        ∧ saveRecord st route b now (Slot.holds (c.map some))
          = (SaveOutcome.updated,
              Slot.holds
                (if k < 0 ∨ 2 ^ 32 - 1 ≤ k then c.map some
                 else c.map some ++ List.replicate (k.toNat - c.length) none
                        ++ [some updated]))
        ∧ ((c.length : Int) ≤ k →
            ((c.map some ++ List.replicate (k.toNat - c.length) none
                ++ [some updated]).length : Int) = k + 1) := by
  have hsave := saveRecord_edit_eq st coords image route seed k b now
    (Slot.holds (c.map some)) (c.map some) hmode hidx hth hloc himg hne hseed rfl
  refine ⟨{ thoughts := st.thoughts, latitude := coords.latitude,
            longitude := coords.longitude, city := st.city, image := image,
            batteryLevel := seed.batteryLevel, timestamp := seed.timestamp },
    rfl, rfl, rfl, rfl, rfl, rfl, rfl, ?_, ?_⟩
  · rw [hsave]
    by_cases hk : k < 0 ∨ 2 ^ 32 - 1 ≤ k
    · rw [if_pos hk]
      rcases hk with hk | hk
      · rw [arrayAssign_negative _ k _ hk]
      · rw [arrayAssign_not_index _ k _ hk]
    · rw [if_neg hk]
      have hlen : ((c.map some).length : Int) ≤ k := by
        rw [List.length_map]
        omega
      rw [arrayAssign_beyond _ k _ hlen (by omega), List.length_map]
  · intro hk
    simp only [List.length_append, List.length_map, List.length_replicate,
      List.length_singleton]
    omega

/-- An edit session holding index 1 is saved on a store of one record: no
error is reported, the outcome is an update, and the slot afterwards holds
two records instead of the one it held. -/
theorem saveRecord_edit_past_end_appends :
    saveRecord { thoughts := "Rewritten",
                 location := some { latitude := 60, longitude := 11 },
                 image := some "file://oslo.jpg", city := "Oslo", isEditing := true,
                 editIndex := some 1 }
        (some { record := some oslo, index := 1 }) (1 / 2) 9000 (Slot.holds [some lyon])
      = (SaveOutcome.updated,
          Slot.holds
            [some lyon,
             some { thoughts := "Rewritten", latitude := 60, longitude := 11, city := "Oslo",
                    image := "file://oslo.jpg", batteryLevel := 47, timestamp := 2000 }]) := by
  decide

/-- C7, evaluated on the code. Three records are stored in creation order
and the list shows `[rome, oslo, lyon]`. The edit form is opened from row 2
(which shows `lyon`) and left without saving; rows 0 and 0 are then deleted,
so the slot holds `[lyon]`. Back on the form, the route still carries
`lyon` and index 2; the text is changed and the form is saved. No error is
reported: the outcome is an update and the slot afterwards holds
`[lyon, null, lyon-edited]` instead of the collection it held. On that slot
the comparator of the list screen throws, so the list keeps its previous
state, and the rendering of the map pins throws. -/
theorem saveRecord_stale_index_writes_past_end :
    editRowParams (loadRecords (Slot.holds [some lyon, some oslo, some rome]) []) 2
        = some { record := some lyon, index := 2 }
      ∧ (handleDelete
          (handleDelete (loadRecords (Slot.holds [some lyon, some oslo, some rome]) []) 0).2
          0).1
        = Slot.holds [some lyon]
      ∧ saveRecord
          { focusEffect (some { record := some lyon, index := 2 })
            with thoughts := "Rewritten" }
          (some { record := some lyon, index := 2 }) (1 / 2) 9000 (Slot.holds [some lyon])
        = (SaveOutcome.updated,
            Slot.holds
              [some lyon, none,
               some { thoughts := "Rewritten", latitude := 45, longitude := 5, city := "Lyon",
                      image := "file://lyon.jpg", batteryLevel := 64, timestamp := 1000 }])
      ∧ loadRecords
          (Slot.holds
            [some lyon, none,
             some { thoughts := "Rewritten", latitude := 45, longitude := 5, city := "Lyon",
                    image := "file://lyon.jpg", batteryLevel := 64, timestamp := 1000 }])
          [some lyon]
        = [some lyon]
      ∧ recordPins
          (loadMarkers
            (Slot.holds
              [some lyon, none,
               some { thoughts := "Rewritten", latitude := 45, longitude := 5, city := "Lyon",
                      image := "file://lyon.jpg", batteryLevel := 64, timestamp := 1000 }])
            [])
        = none := by
  decide

/-- C8. For every persisted collection `c`, every index `i` inside it and
every valid draft of one edit session, saving in edit mode a second time
with the same draft leaves the slot as the first save left it, whatever the
battery level and the time of the second save. -/
theorem saveRecord_edit_idempotent (c : List Record) (i : Nat) (st : FormState)
    (coords : Coords) (image : String) (route : Option RouteParams)
    (b b' : Rat) (now now' : Int)
    (hi : i < c.length) (hjs : c.length < 2 ^ 32)
    (hmode : st.isEditing = true) (hidx : st.editIndex = some (i : Int))
    (hth : st.thoughts ≠ "") (hloc : st.location = some coords)
    (himg : st.image = some image) (hne : image ≠ "") :
    (saveRecord st route b' now' (saveRecord st route b now (Slot.holds (c.map some))).2).2
      = (saveRecord st route b now (Slot.holds (c.map some))).2 := by
  cases hseed : routeRecord route with
  | none =>
    have hc := formComplete_of_fields st coords image hth hloc himg hne
    simp [saveRecord, hc, hloc, himg, buildRecord, hmode, hseed]
  | some seed =>
    have h1 := saveRecord_edit_eq st coords image route seed i b now
      (Slot.holds (c.map some)) (c.map some) hmode hidx hth hloc himg hne hseed rfl
    rw [arrayAssign_inside c i _ hi hjs] at h1
    have h2 := saveRecord_edit_eq st coords image route seed i b' now'
      (Slot.holds ((c.set i
        { thoughts := st.thoughts, latitude := coords.latitude,
          longitude := coords.longitude, city := st.city, image := image,
          batteryLevel := seed.batteryLevel, timestamp := seed.timestamp }).map some))
      _ hmode hidx hth hloc himg hne hseed rfl
    rw [arrayAssign_inside _ i _ (by simpa using hi) (by simpa using hjs),
      List.set_set] at h2
    rw [h1, h2]

/-- Witness of C8: the record at index 1 of a store of three is saved twice
from the same edit session. -/
theorem saveRecord_edit_idempotent_witness :
    (saveRecord { thoughts := "Rewritten",
                  location := some { latitude := 60, longitude := 11 },
                  image := some "file://oslo.jpg", city := "Oslo", isEditing := true,
                  editIndex := some ((1 : Nat) : Int) }
        (some { record := some oslo, index := 1 }) (3 / 4) 9500
        (saveRecord { thoughts := "Rewritten",
                      location := some { latitude := 60, longitude := 11 },
                      image := some "file://oslo.jpg", city := "Oslo", isEditing := true,
                      editIndex := some ((1 : Nat) : Int) }
          (some { record := some oslo, index := 1 }) (1 / 2) 9000
          (Slot.holds ([lyon, oslo, rome].map some))).2).2
      = (saveRecord { thoughts := "Rewritten",
                      location := some { latitude := 60, longitude := 11 },
                      image := some "file://oslo.jpg", city := "Oslo", isEditing := true,
                      editIndex := some ((1 : Nat) : Int) }
          (some { record := some oslo, index := 1 }) (1 / 2) 9000
          (Slot.holds ([lyon, oslo, rome].map some))).2 :=
  saveRecord_edit_idempotent [lyon, oslo, rome] 1 _ { latitude := 60, longitude := 11 }
    "file://oslo.jpg" _ (1 / 2) (3 / 4) 9000 9500
    (by decide) (by decide) rfl rfl (by decide) rfl rfl (by decide)

/-! ## Editing from the list screen -/

/-- C6, evaluated on the code. The collection is stored in creation order
`[lyon, oslo, rome]`; the list screen shows `[rome, oslo, lyon]`. The edit is
started from the first row, which shows `rome`, the text is changed and the
form is saved. The row hands over display position 0, and `saveRecord`
writes at storage index 0: `lyon` is overwritten by the edited copy of
`rome`, and `rome` itself, stored at index 2, is left as it was. -/
theorem edit_from_list_overwrites_display_position :
    (loadRecords (Slot.holds [some lyon, some oslo, some rome]) []).get? 0 = some (some rome)
      ∧ editRowParams (loadRecords (Slot.holds [some lyon, some oslo, some rome]) []) 0
        = some { record := some rome, index := 0 }
      ∧ saveRecord
          { focusEffect
              (editRowParams (loadRecords (Slot.holds [some lyon, some oslo, some rome]) []) 0)
            with thoughts := "Rewritten" }
          (editRowParams (loadRecords (Slot.holds [some lyon, some oslo, some rome]) []) 0)
          (1 / 2) 9000 (Slot.holds [some lyon, some oslo, some rome])
        = (SaveOutcome.updated,
            Slot.holds
              [some { thoughts := "Rewritten", latitude := 42, longitude := 12, city := "Rome",
                      image := "file://rome.jpg", batteryLevel := 91, timestamp := 3000 },
               some oslo, some rome]) := by
  decide

/-! ## Loading when the slot cannot be read -/

/-- C9, evaluated on the code. The list screen shows one record from an
earlier load. When the slot is then absent, or cannot be read, `loadRecords`
leaves that record on screen, whereas `loadMarkers` clears the map in both
cases. -/
theorem loadRecords_keeps_previous_list :
    loadRecords Slot.absent [some lyon] = [some lyon]
      ∧ loadRecords Slot.unreadable [some lyon] = [some lyon]
      ∧ loadRecords Slot.absent [some lyon] ≠ []
      ∧ loadRecords Slot.unreadable [some lyon] ≠ []
      ∧ loadMarkers Slot.absent [some lyon] = []
      ∧ loadMarkers Slot.unreadable [some lyon] = [] := by
  decide

/-! ## The pins of the map screen -/

/-- C10. For every persisted collection `c`, the record pins of the map
screen after `loadMarkers` are one pin per record of `c`, in the storage
order of `c`: there are `length c` pins, and the pin at position `k` has
the latitude, the longitude and the city of the record at `k` and shows its
image reference (no image child for an empty reference). The `MapView`
rendered once the device location is known contains exactly these pins. -/
theorem recordPins_one_per_record_in_storage_order (c : List Record) (prior : Collection) :
    recordPins (loadMarkers (Slot.holds (c.map some)) prior) = some (c.map markerPin)
      ∧ (c.map markerPin).length = c.length
      ∧ (∀ (k : Nat) (r : Record), c.get? k = some r →
          ∃ pin : Pin, (c.map markerPin).get? k = some pin
            ∧ pin.latitude = r.latitude ∧ pin.longitude = r.longitude
            ∧ pin.title = r.city
            ∧ pin.image = (if r.image ≠ "" then some r.image else none))
      ∧ (∀ here : Coords,
          renderMap (some here) (loadMarkers (Slot.holds (c.map some)) prior)
            = some (here, c.map markerPin)) := by
  refine ⟨?_, ?_, ?_, ?_⟩
  · simp [loadMarkers, recordPins_map_some]
  · simp
  · intro k r hk
    refine ⟨markerPin r, ?_, rfl, rfl, rfl, rfl⟩
    simp only [List.get?_eq_getElem?] at hk
    simp [List.get?_eq_getElem?, hk]
  · intro here
    simp [renderMap, loadMarkers, recordPins_map_some]

/-! ## What the delete of the list screen persists -/

/-- C11. For every persisted collection `c` and every display position `d`
(any integer), the delete of the list screen persists the timestamp
descending sorted view of `c` with the entry at position `d` filtered out,
and shows that same list. The persisted collection is sorted by timestamp
descending. When `d` is a valid position, the record removed is the one
displayed at `d`: the persisted collection is the sorted view before `d`
followed by the sorted view after `d`, and has length `length c - 1`. When
`d` is not a valid position, the persisted collection is the whole sorted
view: no record is removed, and the delete completes as for a valid one. -/
theorem handleDelete_persists_filtered_sorted_view (c : List Record) (d : Int)
    (prior : Collection) :
    ∃ kept : List Record,
      kept = arrayFilter (fun _ i => decide ((i : Int) ≠ d)) (arraySort compareFn c)
        ∧ handleDelete (loadRecords (Slot.holds (c.map some)) prior) d
          = (Slot.holds (kept.map some), kept.map some)
        ∧ kept.Sorted (fun a b => b.timestamp ≤ a.timestamp)
        ∧ (0 ≤ d ∧ d < (c.length : Int) →
            ∃ removed : Record,
              (arraySort compareFn c).get? d.toNat = some removed
                ∧ kept = (arraySort compareFn c).take d.toNat
                          ++ (arraySort compareFn c).drop (d.toNat + 1)
                ∧ (removed :: kept).Perm c
                ∧ kept.length = c.length - 1)
        ∧ (d < 0 ∨ (c.length : Int) ≤ d →
            kept = arraySort compareFn c ∧ kept.Perm c ∧ kept.length = c.length) := by
  refine ⟨_, rfl, handleDelete_loaded c d prior, arrayFilter_sorted _ c, ?_, ?_⟩
  · intro hd
    have hlt : d.toNat < (arraySort compareFn c).length := by
      rw [arraySort_length]
      omega
    have hkept := arrayFilter_ne_inside (arraySort compareFn c) d hd.1
    refine ⟨(arraySort compareFn c).get ⟨d.toNat, hlt⟩, ?_, ?_, ?_, ?_⟩
    · exact List.get?_eq_get hlt
    · rw [hkept, List.eraseIdx_eq_take_drop_succ]
    · rw [hkept]
      have hperm : ((arraySort compareFn c).get ⟨d.toNat, hlt⟩
          :: (arraySort compareFn c).eraseIdx d.toNat).Perm (arraySort compareFn c) := by
        have hsplit := List.eraseIdx_eq_take_drop_succ (arraySort compareFn c) d.toNat
        rw [hsplit]
        have hdrop := List.drop_eq_getElem_cons hlt
        have hall := List.take_append_drop d.toNat (arraySort compareFn c)
        rw [hdrop] at hall
        have hmid := (@List.perm_middle Record ((arraySort compareFn c)[d.toNat])
          ((arraySort compareFn c).take d.toNat)
          ((arraySort compareFn c).drop (d.toNat + 1))).symm
        rw [hall] at hmid
        exact hmid
      exact hperm.trans (arraySort_perm c)
    · rw [hkept, List.length_eraseIdx_of_lt hlt, arraySort_length]
  · intro hd
    have hkept : arrayFilter (fun (_ : Record) i => decide ((i : Int) ≠ d))
        (arraySort compareFn c) = arraySort compareFn c := by
      rcases hd with hd | hd
      · exact arrayFilter_ne_negative _ d hd
      · exact arrayFilter_ne_past_end _ d (by rw [arraySort_length]; exact hd)
    rw [hkept]
    exact ⟨rfl, arraySort_perm c, arraySort_length c⟩

end DWT
